import Mathlib

/-!
Shallow embedding of `gemini-cli-usage-analyzer` (Python) in Lean 4.

Source files embedded here:
  * `gemini_cli_usage_analyzer/simplify_logs.py`   (`simplify_record`, the
    record loop of `run_log_simplification`)
  * `gemini_cli_usage_analyzer/calculate_token_usage.py` (`calculate_cost`,
    `UsageStats`, `process_log_file`)
  * `gemini_cli_usage_analyzer/convert_logs.py`    (`get_last_timestamp`,
    `convert_log_file`)

JSON values are modelled by the inductive `JVal`; Python dicts coming from
JSON are association lists preserving insertion order.  Python exceptions
are modelled with `Except PyErr`; machine floats of the price spec are
modelled by exact rationals (the formulas at issue use only `+`, `-`, `*`
and comparisons, whose shape is the object of the claims).
-/

/-- A JSON value, as produced by `orjson.loads`.  Objects are
order-preserving association lists, mirroring Python dicts. -/
inductive JVal where
  | null : JVal
  | boolean (b : Bool) : JVal
  | num (q : ℚ) : JVal
  | str (s : String) : JVal
  | arr (xs : List JVal) : JVal
  | obj (m : List (String × JVal)) : JVal

/-- A top-level JSON object (a Python dict with string keys). -/
abbrev Obj := List (String × JVal)

/-- Python exceptions relevant to the embedded code.  `keyError` is the only
one that `simplify_record`'s `try` block catches; the others propagate. -/
inductive PyErr where
  | keyError : PyErr
  | typeError : PyErr
  | valueError : PyErr
  | attributeError : PyErr
deriving DecidableEq, Repr

/-- Dict lookup: `d.get(k)` returning `none` when the key is absent.
First binding wins, as in a dict (keys are unique after JSON parsing). -/
def jlookup (m : Obj) (k : String) : Option JVal :=
  match m with
  | [] => none
  | (k', v) :: rest => if k' = k then some v else jlookup rest k

/-- Dict update `d[k] = v`: replaces the binding in place (keeping its
position) or appends a new binding at the end, as Python dicts do. -/
def jset (m : Obj) (k : String) (v : JVal) : Obj :=
  match m with
  | [] => [(k, v)]
  | (k', v') :: rest => if k' = k then (k, v) :: rest else (k', v') :: jset rest k v

/-- Python membership test `k in v` for a string key `k`: key lookup on
dicts, substring test on strings, element search on lists, `TypeError`
otherwise. -/
def pyContains (v : JVal) (k : String) : Except PyErr Bool :=
  match v with
  | .obj m => .ok (jlookup m k).isSome
  | .str s => .ok ((s.splitOn k).length > 1)
  | .arr xs => .ok (xs.any fun x => match x with | .str t => t = k | _ => false)
  | _ => .error .typeError

/-- Python subscription `v[k]` with a string key: dict lookup raising
`KeyError` when absent, `TypeError` on any non-dict value. -/
def pyIndex (v : JVal) (k : String) : Except PyErr JVal :=
  match v with
  | .obj m =>
    match jlookup m k with
    | some x => .ok x
    | none => .error .keyError
  | _ => .error .typeError

/-- Python equality of a JSON value with a string literal (`v == "s"`):
true only for an equal string, false across types. -/
def jvalEqStr (v : JVal) (s : String) : Bool :=
  match v with
  | .str t => t = s
  | _ => false

/-- Python truthiness of a JSON value (`if v:`). -/
def pyTruthy : JVal → Bool
  | .null => false
  | .boolean b => b
  | .num q => q ≠ 0
  | .str s => s ≠ ""
  | .arr xs => ¬ xs.isEmpty
  | .obj m => ¬ m.isEmpty

/-! ### simplify_logs.simplify_record -/

/-- The eleven attribute keys of the level-3 reshape, in the order
`simplify_logs.py` lines 56-67 reads them. -/
def level3Keys : List String :=
  ["event.timestamp", "duration_ms", "input_token_count", "output_token_count",
   "cached_content_token_count", "thoughts_token_count", "total_token_count",
   "tool_token_count", "model", "session.id", "event.name"]

/-- Sequential subscription of a list of keys on one value, building the
dict in key order; the first absent key raises `KeyError`, exactly like
the dict display of `simplify_logs.py` lines 55-68 evaluating its values
left to right. -/
def lookupAll (attributes : JVal) : List String → Except PyErr Obj
  | [] => .ok []
  | k :: rest =>
    match pyIndex attributes k with
    | .error e => .error e
    | .ok v =>
      match lookupAll attributes rest with
      | .error e => .error e
      | .ok tail => .ok ((k, v) :: tail)

/-- The level-3 replacement attributes dict of `simplify_record`
(`simplify_logs.py` lines 55-68): the eleven listed keys are read from the
original `attributes` value in source order; the first absent key raises
`KeyError` (caught by the enclosing `try`). -/
def buildLevel3Attrs (attributes : JVal) : Except PyErr Obj :=
  lookupAll attributes level3Keys

/-- The level-2 reshape of `simplify_record` (`simplify_logs.py` lines
76-77): for `level >= 2` the record is rebuilt with exactly the two keys
`attributes` and `_body` (a missing `_body` raises `KeyError`); below
level 2 the record passes through unchanged. -/
def level2Reshape (record : Obj) (level : Int) : Except PyErr (Option Obj) :=
  if 2 ≤ level then
    match pyIndex (.obj record) "attributes" with
    | .error e => .error e
    | .ok a =>
      match pyIndex (.obj record) "_body" with
      | .error e => .error e
      | .ok b => .ok (some [("attributes", a), ("_body", b)])
  else .ok (some record)

/-- The `try` block of `simplify_record` (`simplify_logs.py` lines 47-77):
level-3 filter and attribute replacement, level-1 event filter, level-2
reshape.  Result `none` models the Python `return None`; raised exceptions
are returned as `.error`. -/
def simplifyTry (record : Obj) (level : Int) : Except PyErr (Option Obj) :=
  match pyIndex (.obj record) "attributes" with
  | .error e => .error e
  | .ok attributes =>
    match pyIndex attributes "event.name" with
    | .error e => .error e
    | .ok event_name =>
      if 3 ≤ level then
        if jvalEqStr event_name "gemini_cli.api_response" then
          match buildLevel3Attrs attributes with
          | .error e => .error e
          | .ok newAttrs => level2Reshape (jset record "attributes" (.obj newAttrs)) level
        else .ok none
      else if 1 ≤ level then
        if jvalEqStr event_name "gemini_cli.api_response" ∨
            jvalEqStr event_name "gemini_cli.api_request" then
          level2Reshape record level
        else .ok none
      else
        level2Reshape record level

/-- Embedding of `simplify_record(record, level)` (`simplify_logs.py` lines
25-83).  Level 0 returns the record unchanged; a level outside 0-3 raises
`ValueError`; a record with no `attributes` key or no `event.name` in it is
dropped with a warning; inside the `try` block a `KeyError` is caught and
turned into a dropped record, other exceptions propagate. -/
def simplify_record (record : Obj) (level : Int) : Except PyErr (Option Obj) :=
  if level = 0 then .ok (some record)
  else if level < 0 ∨ 3 < level then .error .valueError
  else
    match jlookup record "attributes" with
    | none => .ok none
    | some attrsVal =>
      match pyContains attrsVal "event.name" with
      | .error e => .error e
      | .ok false => .ok none
      | .ok true =>
        match simplifyTry record level with
        | .error .keyError => .ok none
        | other => other

/-- The record loop of `run_log_simplification` (`simplify_logs.py` lines
140-145) restricted to dict records: records simplified to `None` are
skipped, kept records are written in order, and an uncaught exception from
`simplify_record` aborts the run. -/
def simplifyStream (level : Int) : List Obj → Except PyErr (List Obj)
  | [] => .ok []
  | r :: rest =>
    match simplify_record r level with
    | .error e => .error e
    | .ok none => simplifyStream level rest
    | .ok (some r') =>
      match simplifyStream level rest with
      | .error e => .error e
      | .ok ws => .ok (r' :: ws)

/-! ### calculate_token_usage.calculate_cost -/

/-- The attribute fields read by `calculate_cost` and `process_log_file`
(`calculate_token_usage.py` lines 68-72 and 130-135), projected out of the
attributes dict: `none` stands for an absent key or a JSON `null` value
(both of which `attributes.get(k) or 0` turns into 0), token counts are
exact numbers, `model` is the string value of the `model` key. -/
structure CostAttrs where
  model : Option String := none
  input_token_count : Option ℚ := none
  output_token_count : Option ℚ := none
  cached_content_token_count : Option ℚ := none
  thoughts_token_count : Option ℚ := none
deriving DecidableEq, Repr

/-- One model's pricing record in the price spec: the six optional rate
keys read by `calculate_cost` (`calculate_token_usage.py` lines 77-89),
each defaulting to 0 when absent. -/
structure ModelPricing where
  input_cost_per_token : Option ℚ := none
  output_cost_per_token : Option ℚ := none
  cache_read_input_token_cost : Option ℚ := none
  input_cost_per_token_above_200k_tokens : Option ℚ := none
  output_cost_per_token_above_200k_tokens : Option ℚ := none
  cache_read_input_token_cost_above_200k_tokens : Option ℚ := none
deriving DecidableEq, Repr

/-- The price specification: a mapping from model name to pricing record,
`none` when the model is absent (`price_spec.get(model, {})`). -/
abbrev PriceSpec := String → Option ModelPricing

/-- Embedding of `calculate_cost(attributes, price_spec)`
(`calculate_token_usage.py` lines 58-97): resolve the model (default
`"unknown"`), default every token count to 0, look up the model's pricing
record (default empty), take the three base rates (default 0), override
each with its `..._above_200k_tokens` variant when `input_tokens > 200000`
and the variant is present, and combine with the cost formula of lines
92-96. -/
def calculate_cost (attributes : CostAttrs) (price_spec : PriceSpec) : ℚ :=
  let model := attributes.model.getD "unknown"
  let input_tokens := attributes.input_token_count.getD 0
  let output_tokens := attributes.output_token_count.getD 0
  let cached_tokens := attributes.cached_content_token_count.getD 0
  let thoughts_tokens := attributes.thoughts_token_count.getD 0
  let model_price_spec := (price_spec model).getD {}
  let input_cost_per_token := model_price_spec.input_cost_per_token.getD 0
  let output_cost_per_token := model_price_spec.output_cost_per_token.getD 0
  let cached_cost_per_token := model_price_spec.cache_read_input_token_cost.getD 0
  let input_cost_per_token :=
    if input_tokens > 200000 then
      model_price_spec.input_cost_per_token_above_200k_tokens.getD input_cost_per_token
    else input_cost_per_token
  let output_cost_per_token :=
    if input_tokens > 200000 then
      model_price_spec.output_cost_per_token_above_200k_tokens.getD output_cost_per_token
    else output_cost_per_token
  let cached_cost_per_token :=
    if input_tokens > 200000 then
      model_price_spec.cache_read_input_token_cost_above_200k_tokens.getD cached_cost_per_token
    else cached_cost_per_token
  (input_tokens - cached_tokens) * input_cost_per_token
    + (output_tokens + thoughts_tokens) * output_cost_per_token
    + cached_tokens * cached_cost_per_token

/-- The cost algorithm as the specification words it (spec section 4.4,
steps 1-4), written independently of the source: resolve the model and its
pricing record, choose the three effective rates by the single
`input_token_count > 200000` tier test, then apply the cost formula with
absent-or-null token counts treated as 0. -/
def cost_spec (attributes : CostAttrs) (price_spec : PriceSpec) : ℚ :=
  let pricing := (price_spec (attributes.model.getD "unknown")).getD {}
  let tiered := attributes.input_token_count.getD 0 > 200000
  let input_rate :=
    if tiered then pricing.input_cost_per_token_above_200k_tokens.getD
      (pricing.input_cost_per_token.getD 0)
    else pricing.input_cost_per_token.getD 0
  let output_rate :=
    if tiered then pricing.output_cost_per_token_above_200k_tokens.getD
      (pricing.output_cost_per_token.getD 0)
    else pricing.output_cost_per_token.getD 0
  let cached_rate :=
    if tiered then pricing.cache_read_input_token_cost_above_200k_tokens.getD
      (pricing.cache_read_input_token_cost.getD 0)
    else pricing.cache_read_input_token_cost.getD 0
  let input_tokens := attributes.input_token_count.getD 0
  let output_tokens := attributes.output_token_count.getD 0
  let cached_tokens := attributes.cached_content_token_count.getD 0
  let thoughts_tokens := attributes.thoughts_token_count.getD 0
  (input_tokens - cached_tokens) * input_rate
    + (output_tokens + thoughts_tokens) * output_rate
    + cached_tokens * cached_rate

/-- All rates present in a pricing record are non-negative (absent rates
default to 0). -/
def pricingNonneg (p : ModelPricing) : Prop :=
  0 ≤ p.input_cost_per_token.getD 0 ∧
  0 ≤ p.output_cost_per_token.getD 0 ∧
  0 ≤ p.cache_read_input_token_cost.getD 0 ∧
  0 ≤ p.input_cost_per_token_above_200k_tokens.getD 0 ∧
  0 ≤ p.output_cost_per_token_above_200k_tokens.getD 0 ∧
  0 ≤ p.cache_read_input_token_cost_above_200k_tokens.getD 0

/-- Helper: an optional override kept non-negative.  Mirrors
`model_price_spec.get(tiered_key, base_rate)`: if the override is present
and non-negative the result is non-negative, and likewise when it falls
back to a non-negative base rate. -/
theorem optOverride_nonneg (o : Option ℚ) (base : ℚ)
    (ho : 0 ≤ o.getD 0) (hb : 0 ≤ base) : 0 ≤ o.getD base := by
  cases o with
  | none => simpa using hb
  | some q => simpa using ho

/-- C1: for every attributes map and every price spec, `calculate_cost`
resolves the model (defaulting to `"unknown"`) to its pricing record
(empty when absent, all rates defaulting to 0), overrides each base rate
with its `..._above_200k_tokens` counterpart (when present) exactly when
`input_token_count > 200000`, and returns
`(input_tokens - cached_tokens) * input_rate
  + (output_tokens + thoughts_tokens) * output_rate
  + cached_tokens * cached_rate` with absent or null token counts treated
as 0 — i.e. it agrees everywhere with the specification-side algorithm
`cost_spec`. -/
theorem calculate_cost_matches_spec (attributes : CostAttrs) (price_spec : PriceSpec) :
    calculate_cost attributes price_spec = cost_spec attributes price_spec := rfl

/-- C6 counterexample: with no input tokens, 100 cached tokens and an
input rate of 1 for the default `"unknown"` model, `calculate_cost`
returns `(0 - 100) * 1 + 0 + 100 * 0 = -100`, a negative value, refuting
the claim that the result is non-negative for every attributes map and
price spec. -/
theorem calculate_cost_negative_cex :
    calculate_cost { cached_content_token_count := some 100 }
      (fun m => if m = "unknown" then
        some { input_cost_per_token := some 1 } else none) < 0 := by
  norm_num [calculate_cost]

/-- C6 (amended): the value returned by `calculate_cost` is non-negative
provided the defaulted cached token count lies between 0 and the defaulted
input token count, the defaulted output and thoughts token counts are
non-negative, and every rate present in the resolved pricing record is
non-negative; without these provisos (e.g. `cached_tokens >
input_tokens`, possible in malformed data) the result can be negative
since no clamping is performed. -/
theorem calculate_cost_nonneg (attributes : CostAttrs) (price_spec : PriceSpec)
    (h0 : 0 ≤ attributes.cached_content_token_count.getD 0)
    (h1 : attributes.cached_content_token_count.getD 0 ≤
      attributes.input_token_count.getD 0)
    (h2 : 0 ≤ attributes.output_token_count.getD 0)
    (h3 : 0 ≤ attributes.thoughts_token_count.getD 0)
    (h4 : pricingNonneg ((price_spec (attributes.model.getD "unknown")).getD {})) :
    0 ≤ calculate_cost attributes price_spec := by
  obtain ⟨hi, ho, hc, hti, hto, htc⟩ := h4
  unfold calculate_cost
  by_cases htier : attributes.input_token_count.getD 0 > 200000 <;>
    simp only [htier, if_true, if_false, reduceIte] <;>
  · apply add_nonneg
    apply add_nonneg
    · exact mul_nonneg (by linarith) (by
        first
        | exact optOverride_nonneg _ _ hti hi
        | exact hi)
    · exact mul_nonneg (by linarith) (by
        first
        | exact optOverride_nonneg _ _ hto ho
        | exact ho)
    · exact mul_nonneg h0 (by
        first
        | exact optOverride_nonneg _ _ htc hc
        | exact hc)

/-- C6 amended-claim witness: the non-negativity theorem applied at a
concrete attributes map and price spec. -/
theorem calculate_cost_nonneg_witness :
    0 ≤ calculate_cost
      { model := some "m", input_token_count := some 1000,
        output_token_count := some 500, cached_content_token_count := some 400,
        thoughts_token_count := some 50 }
      (fun m => if m = "m" then
        some { input_cost_per_token := some (1/1000000),
               output_cost_per_token := some (2/1000000),
               cache_read_input_token_cost := some (1/2000000) } else none) :=
  calculate_cost_nonneg _ _ (by norm_num) (by norm_num) (by norm_num) (by norm_num)
    (by norm_num [pricingNonneg])

/-! ### calculate_token_usage.process_log_file -/

/-- Embedding of the `UsageStats` dataclass (`calculate_token_usage.py`
lines 27-36): token and request accumulators plus a cost accumulator. -/
structure UsageStats where
  input_tokens : Int := 0
  output_tokens : Int := 0
  cached_tokens : Int := 0
  thoughts_tokens : Int := 0
  count : Int := 0
  cost : ℚ := 0
deriving DecidableEq, Repr

/-- Python `int(q)` on an exact number: truncation toward zero. -/
def pyInt (q : ℚ) : Int := q.num / (q.den : Int)

/-- One streamed entry of the aggregation loop: `ok` carries the fields the
loop body reads from a dict entry it can process without raising;
`malformed` stands for any point at which the iteration raises — a
non-dict entry (the `assert` of line 125), a corrupt JSONL line raised by
`orjsonl.stream`, or an entry whose structure makes the body raise. -/
inductive LogEntry where
  | ok (event_name : Option String) (attrs : CostAttrs) (event_timestamp : Option String) : LogEntry
  | malformed : LogEntry
deriving DecidableEq, Repr

/-- The aggregation map `usage_by_model_day`: an insertion-ordered
association list from `(model, date)` to `UsageStats`, with dates
abstracted to integer codes (see `process_log_file`). -/
abbrev StatsMap := List ((String × Int) × UsageStats)

/-- Defaultdict update: fetch the entry for the key (inserting a default
`UsageStats` at the end when absent, as `defaultdict` does) and mutate it
in place. -/
def updateStats (m : StatsMap) (k : String × Int) (f : UsageStats → UsageStats) :
    StatsMap :=
  match m with
  | [] => [(k, f {})]
  | (k', s) :: rest => if k' = k then (k', f s) :: rest else (k', s) :: updateStats rest k f

/-- The sentinel `date.min` used when the timestamp is missing, empty or
unparsable. -/
def dateMin : Int := 0

/-- The body of the aggregation loop for one processable entry
(`calculate_token_usage.py` lines 126-158).  `parseDate` abstracts
`datetime.fromisoformat(...).astimezone(timezone).date()` as a map from
timestamp strings to integer date codes, `none` standing for the
`ValueError` that line 146 catches (the date then stays `date.min`).
Only `gemini_cli.api_response` entries touch the statistics and count. -/
def processEntry (price_spec : PriceSpec) (parseDate : String → Option Int)
    (m : StatsMap) (c : Int) (event_name : Option String) (attrs : CostAttrs)
    (event_timestamp : Option String) : StatsMap × Int :=
  if event_name = some "gemini_cli.api_response" then
    let model := attrs.model.getD "unknown"
    let input_tokens := pyInt (attrs.input_token_count.getD 0)
    let output_tokens := pyInt (attrs.output_token_count.getD 0)
    let cached_tokens := pyInt (attrs.cached_content_token_count.getD 0)
    let thoughts_tokens := pyInt (attrs.thoughts_token_count.getD 0)
    let event_date :=
      match event_timestamp with
      | none => dateMin
      | some s => if s = "" then dateMin else (parseDate s).getD dateMin
    let cost := calculate_cost attrs price_spec
    (updateStats m (model, event_date) (fun st =>
      { st with
        input_tokens := st.input_tokens + input_tokens,
        output_tokens := st.output_tokens + output_tokens,
        cached_tokens := st.cached_tokens + cached_tokens,
        thoughts_tokens := st.thoughts_tokens + thoughts_tokens,
        count := st.count + 1,
        cost := st.cost + cost }), c + 1)
  else (m, c)

/-- The `try`/`except` loop of `process_log_file`
(`calculate_token_usage.py` lines 123-161): entries are folded in order;
the first `malformed` entry raises, the handler sets
`encountered_errors = True` and the accumulated map and count are
returned as they stand, ignoring the rest of the stream. -/
def processEntries (price_spec : PriceSpec) (parseDate : String → Option Int) :
    List LogEntry → StatsMap → Int → StatsMap × Int × Bool
  | [], m, c => (m, c, false)
  | .malformed :: _, m, c => (m, c, true)
  | .ok en attrs ts :: rest, m, c =>
    let p := processEntry price_spec parseDate m c en attrs ts
    processEntries price_spec parseDate rest p.1 p.2

/-- Embedding of `process_log_file` (`calculate_token_usage.py` lines
100-163) over the streamed entries of the log file: starts from an empty
map and zero count and folds `processEntries` over the stream. -/
def process_log_file (price_spec : PriceSpec) (parseDate : String → Option Int)
    (entries : List LogEntry) : StatsMap × Int × Bool :=
  processEntries price_spec parseDate entries [] 0

/-- Sum of the `count` fields over all values of the statistics map. -/
def sumCounts (m : StatsMap) : Int :=
  (m.map (fun p => p.2.count)).sum

/-- Helper: a defaultdict update whose mutation adds one to the `count`
field adds exactly one to the total of the `count` fields. -/
theorem sumCounts_updateStats (m : StatsMap) (k : String × Int)
    (f : UsageStats → UsageStats) (hf : ∀ st, (f st).count = st.count + 1) :
    sumCounts (updateStats m k f) = sumCounts m + 1 := by
  induction m with
  | nil => simp [updateStats, sumCounts, hf]
  | cons p rest ih =>
    obtain ⟨k', s⟩ := p
    simp only [updateStats, sumCounts, List.map_cons, List.sum_cons]
    by_cases hk : k' = k
    · rw [if_pos hk]
      simp only [List.map_cons, List.sum_cons, hf]
      omega
    · rw [if_neg hk]
      simp only [List.map_cons, List.sum_cons]
      simp only [sumCounts] at ih
      omega

/-- Helper: one loop iteration adds one to the event count exactly for
`gemini_cli.api_response` entries and leaves it unchanged otherwise. -/
theorem processEntry_count (price_spec : PriceSpec) (parseDate : String → Option Int)
    (m : StatsMap) (c : Int) (en : Option String) (attrs : CostAttrs)
    (ts : Option String) :
    (processEntry price_spec parseDate m c en attrs ts).2 =
      c + (if en = some "gemini_cli.api_response" then 1 else 0) := by
  unfold processEntry
  split <;> simp

/-- Helper: one loop iteration adds one to the summed `count` fields
exactly for `gemini_cli.api_response` entries. -/
theorem processEntry_sumCounts (price_spec : PriceSpec) (parseDate : String → Option Int)
    (m : StatsMap) (c : Int) (en : Option String) (attrs : CostAttrs)
    (ts : Option String) :
    sumCounts (processEntry price_spec parseDate m c en attrs ts).1 =
      sumCounts m + (if en = some "gemini_cli.api_response" then 1 else 0) := by
  unfold processEntry
  split
  · rename_i h
    simp only [h, if_pos rfl]
    exact sumCounts_updateStats _ _ _ (fun st => rfl)
  · rename_i h
    simp [h]

/-- Helper: the count/stats-sum invariant is preserved by the whole fold,
whatever prefix state it starts from. -/
theorem processEntries_invariant (price_spec : PriceSpec)
    (parseDate : String → Option Int) (entries : List LogEntry) :
    ∀ (m : StatsMap) (c : Int), c = sumCounts m →
      (processEntries price_spec parseDate entries m c).2.1 =
        sumCounts (processEntries price_spec parseDate entries m c).1 := by
  induction entries with
  | nil => intro m c h; simpa [processEntries] using h
  | cons e rest ih =>
    intro m c h
    cases e with
    | malformed => simpa [processEntries] using h
    | ok en attrs ts =>
      simp only [processEntries]
      apply ih
      rw [processEntry_count, processEntry_sumCounts, h]

/-- C10: at every return of `process_log_file` — including a return after
an error aborted the stream mid-way — the returned total event count
equals the sum of the `count` fields over all `UsageStats` values in the
returned map, and the two tallies are stepped together: one loop
iteration adds one to each exactly for `gemini_cli.api_response` entries
and leaves both unchanged otherwise. -/
theorem process_log_file_count_invariant (price_spec : PriceSpec)
    (parseDate : String → Option Int) (entries : List LogEntry) :
    ((process_log_file price_spec parseDate entries).2.1 =
      sumCounts (process_log_file price_spec parseDate entries).1)
    ∧ ∀ (m : StatsMap) (c : Int) (en : Option String) (attrs : CostAttrs)
        (ts : Option String),
        (processEntry price_spec parseDate m c en attrs ts).2 =
            c + (if en = some "gemini_cli.api_response" then 1 else 0)
        ∧ sumCounts (processEntry price_spec parseDate m c en attrs ts).1 =
            sumCounts m + (if en = some "gemini_cli.api_response" then 1 else 0) := by
  constructor
  · exact processEntries_invariant price_spec parseDate entries [] 0 (by simp [sumCounts])
  · intro m c en attrs ts
    exact ⟨processEntry_count _ _ _ _ _ _ _, processEntry_sumCounts _ _ _ _ _ _ _⟩

/-- Helper: folding a malformed-free prefix never sets the error flag and
is the same whatever follows it. -/
theorem processEntries_clean_append (price_spec : PriceSpec)
    (parseDate : String → Option Int) (post : List LogEntry) :
    ∀ (pre : List LogEntry), LogEntry.malformed ∉ pre →
      ∀ (m : StatsMap) (c : Int),
        processEntries price_spec parseDate (pre ++ LogEntry.malformed :: post) m c =
          ((processEntries price_spec parseDate pre m c).1,
           (processEntries price_spec parseDate pre m c).2.1, true) := by
  intro pre
  induction pre with
  | nil => intro _ m c; simp [processEntries]
  | cons e rest ih =>
    intro hpre m c
    cases e with
    | malformed => exact absurd (List.mem_cons_self _ _) hpre
    | ok en attrs ts =>
      have hrest : LogEntry.malformed ∉ rest := fun h => hpre (List.mem_cons_of_mem _ h)
      simp only [List.cons_append, processEntries]
      exact ih hrest _ _

/-- C4: in `process_log_file`, the first per-record exception — modelled
by a `malformed` entry (a non-dict entry, a corrupt line, or any structure
that makes the loop body raise) — aborts processing of the entire
remaining stream: the error flag of the result is `true` and the
statistics map and event count are exactly those accumulated over the
prefix before the failing entry, whatever records follow it. -/
theorem process_log_file_aborts_on_error (price_spec : PriceSpec)
    (parseDate : String → Option Int) (pre post : List LogEntry)
    (hpre : LogEntry.malformed ∉ pre) :
    process_log_file price_spec parseDate (pre ++ LogEntry.malformed :: post) =
      ((process_log_file price_spec parseDate pre).1,
       (process_log_file price_spec parseDate pre).2.1, true) :=
  processEntries_clean_append price_spec parseDate post pre hpre [] 0

/-- C4 witness: the abort theorem applied to a concrete stream of one
`api_response` entry followed by a malformed entry and a trailing entry:
the result keeps the first entry's statistics, counts one event and flags
the error. -/
theorem process_log_file_aborts_on_error_witness :
    process_log_file (fun _ => none) (fun _ => some 7)
        ([LogEntry.ok (some "gemini_cli.api_response")
            { model := some "m", input_token_count := some 3 } (some "t1")]
          ++ LogEntry.malformed ::
            [LogEntry.ok (some "gemini_cli.api_response") {} (some "t2")]) =
      ((process_log_file (fun _ => none) (fun _ => some 7)
          [LogEntry.ok (some "gemini_cli.api_response")
            { model := some "m", input_token_count := some 3 } (some "t1")]).1,
       (process_log_file (fun _ => none) (fun _ => some 7)
          [LogEntry.ok (some "gemini_cli.api_response")
            { model := some "m", input_token_count := some 3 } (some "t1")]).2.1,
       true) :=
  process_log_file_aborts_on_error (fun _ => none) (fun _ => some 7) _ _
    (by simp)

/-! ### convert_logs.convert_log_file -/

/-- The attribute extraction `obj.get("attributes", {})` of
`convert_logs.py` line 140: default empty dict when absent; a non-dict
value has no `.get` method, so the subsequent line 143 raises
`AttributeError` (uncaught — it aborts the conversion). -/
def getAttrsDefault (obj : Obj) : Except PyErr Obj :=
  match jlookup obj "attributes" with
  | none => .ok []
  | some (.obj m) => .ok m
  | some _ => .error .attributeError

/-- The incremental check `last_timestamp and current_ts <= last_timestamp`
of `convert_logs.py` line 148: a falsy (absent or empty) watermark
short-circuits to no skip; otherwise the comparison requires the current
timestamp to be a string — Python `<=` between a non-string JSON value and
a string raises `TypeError`. -/
def watermarkSkip (current_ts : JVal) (last_timestamp : Option String) :
    Except PyErr Bool :=
  match last_timestamp with
  | none => .ok false
  | some s =>
    if s = "" then .ok false
    else
      match current_ts with
      | .str t => .ok (decide (t ≤ s))
      | _ => .error .typeError

/-- Embedding of `convert_log_file(input, output, last_timestamp,
simplify_level)` (`convert_logs.py` lines 97-166) at the granularity of
the successfully parsed objects of the input stream (the buffer heuristic
of lines 130-161 yields exactly the concatenated objects for well-formed
input, which is what the claims quantify over).  Returns the written
records in order together with `(count, skipped_count)`: records whose
`event.timestamp` is absent or falsy are dropped via `continue` (line
145), records at or below the watermark bump `skipped_count` (lines
148-150), records simplified to `None` are dropped (line 152), all other
records are written and bump `count`. -/
def convert_log_file :
    List Obj → Option String → Int → Except PyErr (List Obj × Int × Int)
  | [], _, _ => .ok ([], 0, 0)
  | obj :: rest, last_timestamp, simplify_level =>
    match getAttrsDefault obj with
    | .error e => .error e
    | .ok attributes =>
      match jlookup attributes "event.timestamp" with
      | none => convert_log_file rest last_timestamp simplify_level
      | some v =>
        if pyTruthy v then
          match watermarkSkip v last_timestamp with
          | .error e => .error e
          | .ok true =>
            match convert_log_file rest last_timestamp simplify_level with
            | .error e => .error e
            | .ok (ws, c, sk) => .ok (ws, c, sk + 1)
          | .ok false =>
            match simplify_record obj simplify_level with
            | .error e => .error e
            | .ok none => convert_log_file rest last_timestamp simplify_level
            | .ok (some r) =>
              match convert_log_file rest last_timestamp simplify_level with
              | .error e => .error e
              | .ok (ws, c, sk) => .ok (r :: ws, c + 1, sk)
        else convert_log_file rest last_timestamp simplify_level

/-- C7 counterexample: a single parsed record whose attributes dict lacks
`event.timestamp` is dropped, yet the returned skipped count is 0 — the
code reaches `continue` on line 145 without touching `skipped_count`,
refuting the claim that such records are counted as skipped. -/
theorem convert_missing_ts_not_counted_cex :
    convert_log_file [[("attributes", JVal.obj [])]] none 0 = .ok ([], 0, 0) := rfl

/-- C7 (amended): in `convert_log_file`, every successfully parsed record
lacking a truthy `attributes["event.timestamp"]` is dropped without
incrementing either counter (not written, not counted as skipped), while
every record whose string timestamp is ≤ a truthy watermark is dropped
and does increment the returned skipped count. -/
theorem convert_drop_and_skip_counting :
    (∀ (obj : Obj) (rest : List Obj) (lt : Option String) (lvl : Int) (a : Obj),
      getAttrsDefault obj = .ok a →
      (jlookup a "event.timestamp" = none ∨
        (∃ v, jlookup a "event.timestamp" = some v ∧ pyTruthy v = false)) →
      convert_log_file (obj :: rest) lt lvl = convert_log_file rest lt lvl)
    ∧ (∀ (obj : Obj) (rest : List Obj) (s : String) (lvl : Int) (a : Obj) (t : String),
      getAttrsDefault obj = .ok a →
      jlookup a "event.timestamp" = some (.str t) →
      t ≠ "" → s ≠ "" → t ≤ s →
      convert_log_file (obj :: rest) (some s) lvl =
        (convert_log_file rest (some s) lvl).map (fun p => (p.1, p.2.1, p.2.2 + 1))) := by
  constructor
  · intro obj rest lt lvl a ha hts
    rcases hts with h | ⟨v, hv, hfalse⟩
    · simp only [convert_log_file, ha, h]
    · simp only [convert_log_file, ha, hv, hfalse, Bool.false_eq_true, if_false]
  · intro obj rest s lvl a t ha hts htne hsne hle
    have htruthy : pyTruthy (.str t) = true := by simp [pyTruthy, htne]
    have hskip : watermarkSkip (.str t) (some s) = .ok true := by
      simp [watermarkSkip, hsne, hle]
    simp only [convert_log_file, ha, hts, htruthy, if_true, hskip]
    cases h : convert_log_file rest (some s) lvl with
    | error e => simp [Except.map]
    | ok p => obtain ⟨ws, c, sk⟩ := p; simp [Except.map]

/-- C7 amended-claim witness: a record timestamped `"a"` against watermark
`"b"` is skipped with the skipped counter incremented (here, on an empty
tail, the result is exactly `([], 0, 1)`). -/
theorem convert_drop_and_skip_counting_witness :
    convert_log_file [[("attributes", JVal.obj [("event.timestamp", JVal.str "a")])]]
        (some "b") 1 =
      (convert_log_file [] (some "b") 1).map (fun p => (p.1, p.2.1, p.2.2 + 1)) :=
  convert_drop_and_skip_counting.2 _ [] "b" 1 _ "a" rfl rfl
    (by decide) (by decide) (by simp; decide)

/-! ### convert_logs.get_last_timestamp

The byte-level backward scan of `get_last_timestamp` (`convert_logs.py`
lines 18-94) is embedded at line granularity: a file's content is the
list of parts produced by splitting its bytes on the newline character (a
trailing newline therefore contributes a final empty part).  The chunked
reads of the loop reconstruct exactly these parts across chunk seams, in
backward order, so the line-level semantics is independent of the chunk
size: every part except the file's first is tried inside the
`try/except orjson.JSONDecodeError` of lines 60-76, and the first part —
the `remainder` left when position 0 is reached — is parsed on line 89
with no handler, so any failure there escapes to the
`except Exception` on line 91 and becomes a `ValueError`.
-/

/-- One part of the file content between newlines, classified: whitespace
only, non-blank but not parseable as JSON, or parseable to the JSON value
carried. -/
inductive Line where
  | blank : Line
  | corrupt : Line
  | json (v : JVal) : Line

/-- The timestamp extraction `orjson.loads(line)["attributes"]["event.timestamp"]`
applied to an already parsed value: raises `TypeError`/`KeyError` when the
value is not an object carrying the nested key. -/
def lineTs (v : JVal) : Except PyErr JVal :=
  match pyIndex v "attributes" with
  | .error e => .error e
  | .ok a => pyIndex a "event.timestamp"

/-- One backward-scan step over a non-first line (`convert_logs.py` lines
59-76): blank lines are passed over, a `JSONDecodeError` is caught, logged
and passed over, and a successfully parsed line must yield the nested
timestamp — a `KeyError`/`TypeError` there escapes the handler, surfacing
as the `ValueError` of line 92 (modelled by `.error ()`). -/
def tryLine (l : Line) : Except Unit (Option JVal) :=
  match l with
  | .blank => .ok none
  | .corrupt => .ok none
  | .json v =>
    match lineTs v with
    | .ok ts => .ok (some ts)
    | .error _ => .error ()

/-- The backward scan over the non-first lines, nearest-to-the-end
first. -/
def scanBack : List Line → Except Unit (Option JVal)
  | [] => .ok none
  | l :: rest =>
    match tryLine l with
    | .error e => .error e
    | .ok (some ts) => .ok (some ts)
    | .ok none => scanBack rest

/-- The unprotected parse of the file's first line (`convert_logs.py`
lines 88-89): a blank remainder falls through to `return None`; any parse
or key failure escapes to the `ValueError` of line 92. -/
def firstLineTs (l : Line) : Except Unit (Option JVal) :=
  match l with
  | .blank => .ok none
  | .corrupt => .error ()
  | .json v =>
    match lineTs v with
    | .ok ts => .ok (some ts)
    | .error _ => .error ()

/-- Embedding of `get_last_timestamp(file_path)` (`convert_logs.py` lines
18-94) on the newline-split parts of an existing file's content (`[]` is
the empty file, which returns `None` before the scan): the non-first
parts are tried backward with decode errors skipped, then the first part
is parsed unprotected. -/
def get_last_timestamp (parts : List Line) : Except Unit (Option JVal) :=
  match parts with
  | [] => .ok none
  | p0 :: rest =>
    match scanBack rest.reverse with
    | .error e => .error e
    | .ok (some ts) => .ok (some ts)
    | .ok none => firstLineTs p0

/-- Helper: blank and corrupt lines are passed over by the backward
scan. -/
theorem scanBack_append_skips (xs ys : List Line)
    (hxs : ∀ l ∈ xs, l = Line.blank ∨ l = Line.corrupt) :
    scanBack (xs ++ ys) = scanBack ys := by
  induction xs with
  | nil => rfl
  | cons x rest ih =>
    have hx := hxs x (List.mem_cons_self _ _)
    have hrest : ∀ l ∈ rest, l = Line.blank ∨ l = Line.corrupt :=
      fun l hl => hxs l (List.mem_cons_of_mem _ hl)
    rcases hx with h | h <;> subst h <;>
      simpa [scanBack, tryLine] using ih hrest

/-- Helper: a scan over only blank and corrupt lines finds nothing. -/
theorem scanBack_skips (xs : List Line)
    (hxs : ∀ l ∈ xs, l = Line.blank ∨ l = Line.corrupt) :
    scanBack xs = .ok none := by
  have h := scanBack_append_skips xs [] hxs
  simpa using h

/-- C8 counterexample: a file whose first line is a well-formed object
with a timestamp, whose second line is the well-formed object `{"a": 1}`
without an `attributes` key, and whose last line is corrupt.  The claim's
hypotheses hold (corrupt final line, an earlier well-formed line carrying
the timestamp), yet the whole call fails: after skipping the corrupt
tail, the scan parses the second line successfully and the `KeyError` on
its missing `attributes` key escapes the decode-error handler, becoming a
`ValueError` instead of a returned timestamp. -/
theorem get_last_timestamp_keyerror_cex :
    get_last_timestamp
      [Line.json (.obj [("attributes", .obj [("event.timestamp", .str "T1")])]),
       Line.json (.obj [("a", .num 1)]),
       Line.corrupt] = .error () := rfl

/-- C8 (amended): for a file whose trailing lines are blank or corrupt,
`get_last_timestamp` returns the timestamp of the nearest preceding line
that parses as JSON, provided that line is an object carrying
`attributes["event.timestamp"]`; when the nearest preceding well-formed
line lacks that key, the whole call raises `ValueError` instead — only
JSON decode failures are skipped by the backward scan. -/
theorem get_last_timestamp_skips_corrupt_tail (pre post : List Line) (v ts : JVal)
    (hpost : ∀ l ∈ post, l = Line.blank ∨ l = Line.corrupt)
    (hts : lineTs v = .ok ts) :
    get_last_timestamp (pre ++ Line.json v :: post) = .ok (some ts) := by
  cases pre with
  | nil =>
    simp only [List.nil_append, get_last_timestamp]
    rw [scanBack_skips post.reverse (by simpa using hpost)]
    simp [firstLineTs, hts]
  | cons p0 rest =>
    simp only [List.cons_append, get_last_timestamp, List.reverse_append,
      List.reverse_cons]
    rw [List.append_assoc, scanBack_append_skips post.reverse _ (by simpa using hpost)]
    simp [scanBack, tryLine, hts]

/-- C8 amended-claim witness: the amended theorem applied to a concrete
file — a corrupt tail line and two corrupt lines before the well-formed
one — returning the timestamp `"T2"` of the nearest preceding well-formed
line. -/
theorem get_last_timestamp_skips_corrupt_tail_witness :
    get_last_timestamp
      [Line.corrupt,
       Line.json (.obj [("attributes", .obj [("event.timestamp", .str "T2")])]),
       Line.corrupt, Line.blank] = .ok (some (.str "T2")) :=
  get_last_timestamp_skips_corrupt_tail [Line.corrupt] [Line.corrupt, Line.blank]
    _ _ (by intro l hl; simp at hl; rcases hl with h | h <;> simp [h]) rfl

/-- C9 counterexample: a non-empty single-line file whose only line is
corrupt (e.g. the bytes `bad` with no newline) — no line yields a
parseable timestamp, yet `get_last_timestamp` raises `ValueError` (the
first line is parsed with no handler on line 89) instead of returning
`None` as the claim requires. -/
theorem get_last_timestamp_corrupt_first_cex :
    get_last_timestamp [Line.corrupt] = .error () := rfl

/-- C9 (amended): for a file all of whose lines are blank or corrupt (so
no line yields a parseable timestamp), `get_last_timestamp` returns `None`
exactly when the file is empty or its first line is blank; a non-blank
first line is parsed with no handler, so its decode failure escapes as a
`ValueError` rather than the claimed treat-as-absent `None`. -/
theorem get_last_timestamp_unparseable (parts : List Line)
    (hparts : ∀ l ∈ parts, l = Line.blank ∨ l = Line.corrupt) :
    get_last_timestamp parts = .ok none ↔
      (parts = [] ∨ parts.head? = some Line.blank) := by
  cases parts with
  | nil => simp [get_last_timestamp]
  | cons p0 rest =>
    have hrest : ∀ l ∈ rest, l = Line.blank ∨ l = Line.corrupt :=
      fun l hl => hparts l (List.mem_cons_of_mem _ hl)
    have h0 := hparts p0 (List.mem_cons_self _ _)
    simp only [get_last_timestamp]
    rw [scanBack_skips rest.reverse (by simpa using hrest)]
    rcases h0 with h | h <;> subst h <;> simp [firstLineTs]

/-- C9 amended-claim witness: a two-line file (blank first line, corrupt
second line) contains no parseable timestamp and returns `None`. -/
theorem get_last_timestamp_unparseable_witness :
    get_last_timestamp [Line.blank, Line.corrupt] = .ok none :=
  (get_last_timestamp_unparseable [Line.blank, Line.corrupt]
    (by intro l hl; simp at hl; rcases hl with h | h <;> simp [h])).mpr
    (Or.inr rfl)

/-! ### Characterizing simplify_record -/

/-- Helper: updating a dict key and reading it back yields the new
value. -/
theorem jlookup_jset_self (m : Obj) (k : String) (v : JVal) :
    jlookup (jset m k v) k = some v := by
  induction m with
  | nil => simp [jset, jlookup]
  | cons p rest ih =>
    obtain ⟨k1, v1⟩ := p
    by_cases h : k1 = k
    · simp [jset, h, jlookup]
    · simp [jset, h, jlookup, ih]

/-- Helper: updating a dict key leaves the other keys unchanged. -/
theorem jlookup_jset_ne (m : Obj) (k kq : String) (v : JVal) (h : kq ≠ k) :
    jlookup (jset m k v) kq = jlookup m kq := by
  induction m with
  | nil => simp [jset, jlookup, if_neg (Ne.symm h)]
  | cons p rest ih =>
    obtain ⟨k1, v1⟩ := p
    by_cases h1 : k1 = k
    · subst h1
      simp [jset, jlookup, if_neg (Ne.symm h)]
    · simp [jset, h1, jlookup, ih]

/-- Helper: a key list containing an absent key makes `lookupAll` raise
`KeyError` (the first absent key in order raises; any one suffices for the
conclusion). -/
theorem lookupAll_missing (attrs : Obj) (keys : List String) (k : String)
    (hk : k ∈ keys) (hmiss : jlookup attrs k = none) :
    lookupAll (.obj attrs) keys = .error .keyError := by
  induction keys with
  | nil => simp at hk
  | cons k1 rest ih =>
    rcases List.mem_cons.mp hk with h | h
    · subst h
      simp [lookupAll, pyIndex, hmiss]
    · cases h1 : jlookup attrs k1 with
      | none => simp [lookupAll, pyIndex, h1]
      | some v => simp [lookupAll, pyIndex, h1, ih h]

/-- Helper: a successful `lookupAll` returns exactly the requested keys in
order, each paired with its value in the source dict, and certifies that
every requested key is present. -/
theorem lookupAll_ok (attrs : Obj) (keys : List String) (na : Obj)
    (h : lookupAll (.obj attrs) keys = .ok na) :
    na = keys.map (fun k => (k, (jlookup attrs k).getD JVal.null))
      ∧ ∀ k ∈ keys, (jlookup attrs k).isSome := by
  induction keys generalizing na with
  | nil =>
    simp [lookupAll] at h
    simp [h.symm]
  | cons k1 rest ih =>
    cases h1 : jlookup attrs k1 with
    | none => simp [lookupAll, pyIndex, h1] at h
    | some v =>
      cases h2 : lookupAll (.obj attrs) rest with
      | error e => simp [lookupAll, pyIndex, h1, h2] at h
      | ok tail =>
        simp [lookupAll, pyIndex, h1, h2] at h
        obtain ⟨hmap, hall⟩ := ih tail h2
        refine ⟨?_, ?_⟩
        · rw [h.symm, List.map_cons, ← hmap, h1]
          rfl
        · intro k hk
          rcases List.mem_cons.mp hk with hh | hh
          · subst hh; simp [h1]
          · exact hall k hh

/-- Helper: on a dict argument `lookupAll` can only raise `KeyError`. -/
theorem lookupAll_error_obj (attrs : Obj) (keys : List String) (e : PyErr)
    (h : lookupAll (.obj attrs) keys = .error e) : e = .keyError := by
  induction keys generalizing e with
  | nil => simp [lookupAll] at h
  | cons k1 rest ih =>
    cases h1 : jlookup attrs k1 with
    | none =>
      simp [lookupAll, pyIndex, h1] at h
      exact h.symm
    | some v =>
      cases h2 : lookupAll (.obj attrs) rest with
      | error e2 =>
        simp [lookupAll, pyIndex, h1, h2] at h
        exact h ▸ ih e2 h2
      | ok tail => simp [lookupAll, pyIndex, h1, h2] at h

/-- The part of `simplify_record` after its level guards (`simplify_logs.py`
lines 43-83), split out so that the guards can be discharged once for a
level known to be in 1-3. -/
def simplifyChecked (record : Obj) (level : Int) : Except PyErr (Option Obj) :=
  match jlookup record "attributes" with
  | none => .ok none
  | some attrsVal =>
    match pyContains attrsVal "event.name" with
    | .error e => .error e
    | .ok false => .ok none
    | .ok true =>
      match simplifyTry record level with
      | .error .keyError => .ok none
      | other => other

/-- Helper: for levels 1-3 `simplify_record` is its post-guard body. -/
theorem simplify_record_eq_checked (record : Obj) (level : Int)
    (h0 : level ≠ 0) (h1 : 0 ≤ level) (h3 : level ≤ 3) :
    simplify_record record level = simplifyChecked record level := by
  unfold simplify_record simplifyChecked
  rw [if_neg h0, if_neg (by omega : ¬(level < 0 ∨ 3 < level))]

/-- Helper: the reshape below level 2 passes the record through. -/
theorem level2Reshape_lo (record : Obj) (level : Int) (h : level < 2) :
    level2Reshape record level = .ok (some record) := by
  unfold level2Reshape
  rw [if_neg (by omega : ¬(2:Int) ≤ level)]

/-- Helper: the reshape at level 2 and above rebuilds the record from its
`attributes` value and its `_body` value, raising `KeyError` when `_body`
is absent. -/
theorem level2Reshape_hi (record : Obj) (level : Int) (h : 2 ≤ level) (av : JVal)
    (hA : jlookup record "attributes" = some av) :
    level2Reshape record level =
      match jlookup record "_body" with
      | none => .error .keyError
      | some b => .ok (some [("attributes", av), ("_body", b)]) := by
  unfold level2Reshape
  rw [if_pos h]
  simp only [pyIndex, hA]
  cases hb : jlookup record "_body" <;> simp

/-- Helper: Python string equality on a JSON value certifies its shape. -/
theorem jvalEqStr_eq (v : JVal) (s : String) (h : jvalEqStr v s = true) :
    v = .str s := by
  cases v <;> simp [jvalEqStr] at h <;> simp [h]

/-- Helper: at level 1 the `try` body of `simplify_record` keeps the
record unchanged exactly when the event name matches one of the two api
events. -/
theorem simplifyTry_one (record attrs : Obj) (v : JVal)
    (hA : jlookup record "attributes" = some (.obj attrs))
    (hE : jlookup attrs "event.name" = some v) :
    simplifyTry record 1 =
      if jvalEqStr v "gemini_cli.api_response" ∨ jvalEqStr v "gemini_cli.api_request"
      then .ok (some record) else .ok none := by
  unfold simplifyTry
  simp only [pyIndex, hA, hE]
  rw [if_neg (by decide : ¬(3:Int) ≤ 1), if_pos (by decide : (1:Int) ≤ 1)]
  by_cases h : jvalEqStr v "gemini_cli.api_response" ∨ jvalEqStr v "gemini_cli.api_request"
  · rw [if_pos h, if_pos h, level2Reshape_lo record 1 (by decide)]
  · rw [if_neg h, if_neg h]

/-- Helper: at level 2 the `try` body filters on the event name and then
reshapes to the `attributes`/`_body` pair, raising `KeyError` when
`_body` is absent. -/
theorem simplifyTry_two (record attrs : Obj) (v : JVal)
    (hA : jlookup record "attributes" = some (.obj attrs))
    (hE : jlookup attrs "event.name" = some v) :
    simplifyTry record 2 =
      if jvalEqStr v "gemini_cli.api_response" ∨ jvalEqStr v "gemini_cli.api_request"
      then
        match jlookup record "_body" with
        | none => .error .keyError
        | some b => .ok (some [("attributes", JVal.obj attrs), ("_body", b)])
      else .ok none := by
  unfold simplifyTry
  simp only [pyIndex, hA, hE]
  rw [if_neg (by decide : ¬(3:Int) ≤ 2), if_pos (by decide : (1:Int) ≤ 2)]
  by_cases h : jvalEqStr v "gemini_cli.api_response" ∨ jvalEqStr v "gemini_cli.api_request"
  · rw [if_pos h, if_pos h, level2Reshape_hi record 2 (by decide) _ hA]
  · rw [if_neg h, if_neg h]

/-- Helper: at level 3, for an `api_response` record, the `try` body
replaces the attributes by the eleven-key dict and reshapes, raising
`KeyError` when one of the eleven keys or `_body` is absent. -/
theorem simplifyTry_three (record attrs : Obj)
    (hA : jlookup record "attributes" = some (.obj attrs))
    (hE : jlookup attrs "event.name" = some (.str "gemini_cli.api_response")) :
    simplifyTry record 3 =
      match buildLevel3Attrs (.obj attrs) with
      | .error e => .error e
      | .ok na =>
        match jlookup record "_body" with
        | none => .error .keyError
        | some b => .ok (some [("attributes", JVal.obj na), ("_body", b)]) := by
  unfold simplifyTry
  simp only [pyIndex, hA, hE]
  rw [if_pos (by decide : (3:Int) ≤ 3),
    if_pos (by decide :
      jvalEqStr (.str "gemini_cli.api_response") "gemini_cli.api_response" = true)]
  cases hb : buildLevel3Attrs (.obj attrs) with
  | error e => simp
  | ok na =>
    simp only []
    rw [level2Reshape_hi _ 3 (by decide) _ (jlookup_jset_self record "attributes" _),
      jlookup_jset_ne record "attributes" "_body" _ (by decide)]

/-- Helper: at level 3 the `try` body drops any record whose event name is
not the `api_response` string. -/
theorem simplifyTry_three_nonresp (record attrs : Obj) (v : JVal)
    (hA : jlookup record "attributes" = some (.obj attrs))
    (hE : jlookup attrs "event.name" = some v)
    (hv : jvalEqStr v "gemini_cli.api_response" = false) :
    simplifyTry record 3 = .ok none := by
  unfold simplifyTry
  simp only [pyIndex, hA, hE]
  rw [if_pos (by decide : (3:Int) ≤ 3), if_neg (by simp [hv])]

/-- Helper: level 0 is the identity. -/
theorem simplify_record_zero (record : Obj) :
    simplify_record record 0 = .ok (some record) := rfl

/-- Helper: level-1 behaviour of `simplify_record` on a record whose
attributes dict carries an event name. -/
theorem simplify_record_one (record attrs : Obj) (v : JVal)
    (hA : jlookup record "attributes" = some (.obj attrs))
    (hE : jlookup attrs "event.name" = some v) :
    simplify_record record 1 =
      if jvalEqStr v "gemini_cli.api_response" ∨ jvalEqStr v "gemini_cli.api_request"
      then .ok (some record) else .ok none := by
  rw [simplify_record_eq_checked _ _ (by decide) (by decide) (by decide)]
  unfold simplifyChecked
  simp only [hA, pyContains, hE, Option.isSome_some]
  rw [simplifyTry_one record attrs v hA hE]
  by_cases h : jvalEqStr v "gemini_cli.api_response" ∨ jvalEqStr v "gemini_cli.api_request" <;>
    simp [h]

/-- Helper: level-2 behaviour of `simplify_record` on a record whose
attributes dict carries an event name: the event filter, then the
`attributes`/`_body` reshape, a record without `_body` being dropped
(`KeyError` caught). -/
theorem simplify_record_two (record attrs : Obj) (v : JVal)
    (hA : jlookup record "attributes" = some (.obj attrs))
    (hE : jlookup attrs "event.name" = some v) :
    simplify_record record 2 =
      if jvalEqStr v "gemini_cli.api_response" ∨ jvalEqStr v "gemini_cli.api_request"
      then
        match jlookup record "_body" with
        | none => .ok none
        | some b => .ok (some [("attributes", JVal.obj attrs), ("_body", b)])
      else .ok none := by
  rw [simplify_record_eq_checked _ _ (by decide) (by decide) (by decide)]
  unfold simplifyChecked
  simp only [hA, pyContains, hE, Option.isSome_some]
  rw [simplifyTry_two record attrs v hA hE]
  by_cases h : jvalEqStr v "gemini_cli.api_response" ∨ jvalEqStr v "gemini_cli.api_request"
  · rw [if_pos h, if_pos h]
    cases hb : jlookup record "_body" <;> simp
  · rw [if_neg h, if_neg h]

/-- Helper: level-3 behaviour of `simplify_record` on an `api_response`
record: build the eleven-key attributes (dropping the record when a key is
absent) and reshape (dropping the record when `_body` is absent). -/
theorem simplify_record_three (record attrs : Obj)
    (hA : jlookup record "attributes" = some (.obj attrs))
    (hE : jlookup attrs "event.name" = some (.str "gemini_cli.api_response")) :
    simplify_record record 3 =
      match buildLevel3Attrs (.obj attrs) with
      | .error _ => .ok none
      | .ok na =>
        match jlookup record "_body" with
        | none => .ok none
        | some b => .ok (some [("attributes", JVal.obj na), ("_body", b)]) := by
  rw [simplify_record_eq_checked _ _ (by decide) (by decide) (by decide)]
  unfold simplifyChecked
  simp only [hA, pyContains, hE, Option.isSome_some]
  rw [simplifyTry_three record attrs hA hE]
  cases hb : buildLevel3Attrs (.obj attrs) with
  | error e =>
    have he : e = .keyError := lookupAll_error_obj attrs level3Keys e hb
    subst he
    simp
  | ok na => cases hbody : jlookup record "_body" <;> simp

/-- Helper: level 3 drops every record whose event name is not the
`api_response` string. -/
theorem simplify_record_three_nonresp (record attrs : Obj) (v : JVal)
    (hA : jlookup record "attributes" = some (.obj attrs))
    (hE : jlookup attrs "event.name" = some v)
    (hv : jvalEqStr v "gemini_cli.api_response" = false) :
    simplify_record record 3 = .ok none := by
  rw [simplify_record_eq_checked _ _ (by decide) (by decide) (by decide)]
  unfold simplifyChecked
  simp only [hA, pyContains, hE, Option.isSome_some]
  rw [simplifyTry_three_nonresp record attrs v hA hE hv]

/-- A record survives simplification at a level: the result is a kept
record, not a drop and not an exception. -/
def keeps (record : Obj) (level : Int) : Prop :=
  ∃ r', simplify_record record level = .ok (some r')

/-- C2: monotone restriction of `simplify_record` across levels.  For
records whose `attributes["event.name"]` is `gemini_cli.api_response`,
survival at any higher level `L2 ≤ 3` implies survival at every lower
level `L1`; for `gemini_cli.api_request` records the same implication
holds whenever `L2 ≤ 2`, while level 3 drops every such record even
though levels 1 and 2 retain some of them (witnessed by a record carrying
`_body`). -/
theorem simplify_monotone_levels :
    (∀ (record attrs : Obj) (L1 L2 : Int),
      jlookup record "attributes" = some (.obj attrs) →
      jlookup attrs "event.name" = some (.str "gemini_cli.api_response") →
      0 ≤ L1 → L1 < L2 → L2 ≤ 3 → keeps record L2 → keeps record L1)
    ∧ (∀ (record attrs : Obj) (L1 L2 : Int),
      jlookup record "attributes" = some (.obj attrs) →
      jlookup attrs "event.name" = some (.str "gemini_cli.api_request") →
      0 ≤ L1 → L1 < L2 → L2 ≤ 2 → keeps record L2 → keeps record L1)
    ∧ (∀ (record attrs : Obj),
      jlookup record "attributes" = some (.obj attrs) →
      jlookup attrs "event.name" = some (.str "gemini_cli.api_request") →
      simplify_record record 3 = .ok none)
    ∧ (∃ record : Obj,
        keeps record 1 ∧ keeps record 2 ∧ simplify_record record 3 = .ok none ∧
        ∃ attrs : Obj, jlookup record "attributes" = some (.obj attrs) ∧
          jlookup attrs "event.name" = some (.str "gemini_cli.api_request")) := by
  have hrsp : (jvalEqStr (JVal.str "gemini_cli.api_response") "gemini_cli.api_response" ∨
      jvalEqStr (JVal.str "gemini_cli.api_response") "gemini_cli.api_request") :=
    Or.inl (by decide)
  have hreq : (jvalEqStr (JVal.str "gemini_cli.api_request") "gemini_cli.api_response" ∨
      jvalEqStr (JVal.str "gemini_cli.api_request") "gemini_cli.api_request") :=
    Or.inr (by decide)
  refine ⟨?_, ?_, ?_, ?_⟩
  · intro record attrs L1 L2 hA hE h0 h12 h23 hk
    have hL1 : L1 = 0 ∨ L1 = 1 ∨ L1 = 2 := by omega
    rcases hL1 with h | h | h <;> subst h
    · exact ⟨record, simplify_record_zero record⟩
    · exact ⟨record, by rw [simplify_record_one record attrs _ hA hE, if_pos hrsp]⟩
    · have hL2 : L2 = 3 := by omega
      subst hL2
      obtain ⟨r', hr'⟩ := hk
      rw [simplify_record_three record attrs hA hE] at hr'
      cases hb : buildLevel3Attrs (.obj attrs) with
      | error e => rw [hb] at hr'; simp at hr'
      | ok na =>
        rw [hb] at hr'
        cases hbody : jlookup record "_body" with
        | none => rw [hbody] at hr'; simp at hr'
        | some b =>
          refine ⟨[("attributes", JVal.obj attrs), ("_body", b)], ?_⟩
          rw [simplify_record_two record attrs _ hA hE, if_pos hrsp, hbody]
  · intro record attrs L1 L2 hA hE h0 h12 h23 hk
    have hL1 : L1 = 0 ∨ L1 = 1 := by omega
    rcases hL1 with h | h <;> subst h
    · exact ⟨record, simplify_record_zero record⟩
    · exact ⟨record, by rw [simplify_record_one record attrs _ hA hE, if_pos hreq]⟩
  · intro record attrs hA hE
    exact simplify_record_three_nonresp record attrs _ hA hE (by decide)
  · refine ⟨[("attributes", JVal.obj [("event.name", JVal.str "gemini_cli.api_request")]),
      ("_body", JVal.null)], ⟨_, rfl⟩, ⟨_, rfl⟩, rfl,
      [("event.name", JVal.str "gemini_cli.api_request")], rfl, rfl⟩

/-- C2 witness: the `api_response` monotone implication applied at levels
`L1 = 0 < L2 = 1` to a concrete `api_response` record, its level-1
survival being discharged by evaluation. -/
theorem simplify_monotone_levels_witness :
    keeps [("attributes", JVal.obj [("event.name", JVal.str "gemini_cli.api_response")])] 0 :=
  simplify_monotone_levels.1 _
    [("event.name", JVal.str "gemini_cli.api_response")] 0 1 rfl rfl
    (by decide) (by decide) (by decide)
    ⟨[("attributes", JVal.obj [("event.name", JVal.str "gemini_cli.api_response")])], rfl⟩

/-- C5: level-3 shape of `simplify_record`.  (1) A record is kept at level
3 only when its `attributes["event.name"]` is exactly
`gemini_cli.api_response`.  (2) A kept record is reshaped to exactly the
two top-level keys `attributes` and `_body`, the attributes dict being
replaced by exactly the eleven keys of `level3Keys` in order with their
original values (all necessarily present).  (3) Absence of any of the
eleven attribute keys, or of `_body`, makes the result absent (a caught
`KeyError`, reported as a warning), and (4) an absent result never aborts
the remaining stream: the record loop simply continues with the rest. -/
theorem simplify_level3_shape :
    (∀ (record r' : Obj), simplify_record record 3 = .ok (some r') →
      ∃ attrs : Obj, jlookup record "attributes" = some (.obj attrs) ∧
        jlookup attrs "event.name" = some (.str "gemini_cli.api_response"))
    ∧ (∀ (record attrs r' : Obj),
        jlookup record "attributes" = some (.obj attrs) →
        jlookup attrs "event.name" = some (.str "gemini_cli.api_response") →
        simplify_record record 3 = .ok (some r') →
        ∃ b : JVal, jlookup record "_body" = some b ∧
          r' = [("attributes", JVal.obj (level3Keys.map
                  (fun k => (k, (jlookup attrs k).getD JVal.null)))),
                ("_body", b)] ∧
          ∀ k ∈ level3Keys, (jlookup attrs k).isSome)
    ∧ (∀ (record attrs : Obj),
        jlookup record "attributes" = some (.obj attrs) →
        jlookup attrs "event.name" = some (.str "gemini_cli.api_response") →
        ((∃ k ∈ level3Keys, jlookup attrs k = none) ∨
          jlookup record "_body" = none) →
        simplify_record record 3 = .ok none)
    ∧ (∀ (record : Obj) (rest : List Obj) (level : Int),
        simplify_record record level = .ok none →
        simplifyStream level (record :: rest) = simplifyStream level rest) := by
  refine ⟨?_, ?_, ?_, ?_⟩
  · intro record r' h
    cases hA0 : jlookup record "attributes" with
    | none =>
      rw [simplify_record_eq_checked _ _ (by decide) (by decide) (by decide)] at h
      unfold simplifyChecked at h
      rw [hA0] at h
      simp at h
    | some av =>
      cases av with
      | obj attrs =>
        refine ⟨attrs, rfl, ?_⟩
        cases hE0 : jlookup attrs "event.name" with
        | none =>
          rw [simplify_record_eq_checked _ _ (by decide) (by decide) (by decide)] at h
          unfold simplifyChecked at h
          rw [hA0] at h
          simp [pyContains, hE0] at h
        | some v =>
          cases hveq : jvalEqStr v "gemini_cli.api_response" with
          | true => exact congrArg some (jvalEqStr_eq v _ hveq)
          | false =>
            rw [simplify_record_three_nonresp record attrs v hA0 hE0 hveq] at h
            simp at h
      | null =>
        rw [simplify_record_eq_checked _ _ (by decide) (by decide) (by decide)] at h
        unfold simplifyChecked at h
        rw [hA0] at h
        simp [pyContains] at h
      | boolean b =>
        rw [simplify_record_eq_checked _ _ (by decide) (by decide) (by decide)] at h
        unfold simplifyChecked at h
        rw [hA0] at h
        simp [pyContains] at h
      | num q =>
        rw [simplify_record_eq_checked _ _ (by decide) (by decide) (by decide)] at h
        unfold simplifyChecked at h
        rw [hA0] at h
        simp [pyContains] at h
      | str s =>
        rw [simplify_record_eq_checked _ _ (by decide) (by decide) (by decide)] at h
        unfold simplifyChecked at h
        rw [hA0] at h
        by_cases hc : (s.splitOn "event.name").length > 1
        · simp only [pyContains, decide_eq_true hc] at h
          simp [simplifyTry, pyIndex, hA0] at h
        · simp [pyContains, hc] at h
      | arr xs =>
        rw [simplify_record_eq_checked _ _ (by decide) (by decide) (by decide)] at h
        unfold simplifyChecked at h
        rw [hA0] at h
        by_cases hc :
            (xs.any fun x => match x with | .str t => t = "event.name" | _ => false) = true
        · simp only [pyContains, hc] at h
          simp [simplifyTry, pyIndex, hA0] at h
        · simp [pyContains, hc] at h
  · intro record attrs r' hA hE h
    rw [simplify_record_three record attrs hA hE] at h
    cases hb : buildLevel3Attrs (.obj attrs) with
    | error e => rw [hb] at h; simp at h
    | ok na =>
      rw [hb] at h
      cases hbody : jlookup record "_body" with
      | none => rw [hbody] at h; simp at h
      | some b =>
        rw [hbody] at h
        simp only [Except.ok.injEq, Option.some.injEq] at h
        obtain ⟨hmap, hall⟩ := lookupAll_ok attrs level3Keys na hb
        exact ⟨b, rfl, by rw [← h, hmap], hall⟩
  · intro record attrs hA hE hmiss
    rw [simplify_record_three record attrs hA hE]
    rcases hmiss with ⟨k, hk, hknone⟩ | hbody
    · have hb : buildLevel3Attrs (.obj attrs) = .error .keyError :=
        lookupAll_missing attrs level3Keys k hk hknone
      rw [hb]
    · cases hb : buildLevel3Attrs (.obj attrs) with
      | error e => simp
      | ok na => simp [hbody]
  · intro record rest level h
    simp [simplifyStream, h]

/-- C5 witness: the absent-key clause applied at a concrete `api_response`
record missing `event.timestamp` (and every other token attribute): the
record is dropped with a caught `KeyError`, result absent. -/
theorem simplify_level3_shape_witness :
    simplify_record
      [("attributes", JVal.obj [("event.name", JVal.str "gemini_cli.api_response")])] 3 =
      .ok none :=
  simplify_level3_shape.2.2.1 _
    [("event.name", JVal.str "gemini_cli.api_response")] rfl rfl
    (Or.inl ⟨"event.timestamp", by decide, rfl⟩)

/-! ### Incremental conversion idempotence (run, re-scan, re-run) -/

/-- The attributes dict a record's timestamp is read from: the `attributes`
value when it is a dict, the empty default otherwise (mirroring
`obj.get("attributes", {})` on well-formed records). -/
def attrsOf (obj : Obj) : Obj :=
  match jlookup obj "attributes" with
  | some (.obj a) => a
  | _ => []

/-- The record's event timestamp when present as a string. -/
def tsStrOf (obj : Obj) : Option String :=
  match jlookup (attrsOf obj) "event.timestamp" with
  | some (.str t) => some t
  | _ => none

/-- A record the converter can stream without raising: its `attributes`
key is absent or a dict, and its `event.timestamp` (when present) is a
string, as the data model prescribes for well-formed telemetry records. -/
def ConvRecOk (obj : Obj) : Prop :=
  ∃ a : Obj, getAttrsDefault obj = .ok a ∧
    ∀ v, jlookup a "event.timestamp" = some v → ∃ t : String, v = .str t

/-- The per-record outcome of a conversion run with no watermark: the
written form of the record when its timestamp is truthy and simplification
keeps it, `none` when it is dropped. -/
def keptRec (lvl : Int) (obj : Obj) : Option Obj :=
  match jlookup (attrsOf obj) "event.timestamp" with
  | some v =>
    if pyTruthy v then
      match simplify_record obj lvl with
      | .ok (some r) => some r
      | _ => none
    else none
  | none => none

/-- The timestamp of a record that a no-watermark run writes. -/
def keptTs (lvl : Int) (obj : Obj) : Option String :=
  match keptRec lvl obj with
  | some _ => tsStrOf obj
  | none => none

/-- The newline-split parts of the output file written by a conversion
run: one serialized object per line, the trailing newline contributing a
final empty part; an empty run leaves an empty file. -/
def outputParts (ws : List Obj) : List Line :=
  if ws.isEmpty then [] else ws.map (fun r => Line.json (.obj r)) ++ [Line.blank]

/-- Helper: a successful `getAttrsDefault` returns `attrsOf`. -/
theorem attrsOf_eq (obj : Obj) (a : Obj) (h : getAttrsDefault obj = .ok a) :
    attrsOf obj = a := by
  unfold getAttrsDefault at h
  unfold attrsOf
  cases hl : jlookup obj "attributes" with
  | none => rw [hl] at h; simp at h; simp [h]
  | some av =>
    rw [hl] at h
    cases av <;> simp at h <;> simp [h]

/-- Helper: on a well-formed record an in-range simplification level never
raises. -/
theorem simplify_no_error (obj : Obj) (lvl : Int) (h0 : 0 ≤ lvl) (h3 : lvl ≤ 3)
    (hok : ConvRecOk obj) : ∃ o, simplify_record obj lvl = .ok o := by
  obtain ⟨a, ha, _⟩ := hok
  by_cases hz : lvl = 0
  · subst hz; exact ⟨some obj, simplify_record_zero obj⟩
  rw [simplify_record_eq_checked obj lvl hz h0 h3]
  unfold simplifyChecked
  unfold getAttrsDefault at ha
  cases hl : jlookup obj "attributes" with
  | none => exact ⟨none, rfl⟩
  | some av =>
    rw [hl] at ha
    cases av with
    | obj attrs =>
      simp only [pyContains]
      cases hE : jlookup attrs "event.name" with
      | none => simp
      | some v =>
        simp only [hE, Option.isSome_some]
        have hL : lvl = 1 ∨ lvl = 2 ∨ lvl = 3 := by omega
        rcases hL with h | h | h <;> subst h
        · rw [simplifyTry_one obj attrs v hl hE]
          by_cases hc : jvalEqStr v "gemini_cli.api_response" ∨
              jvalEqStr v "gemini_cli.api_request"
          · rw [if_pos hc]; exact ⟨some obj, rfl⟩
          · rw [if_neg hc]; exact ⟨none, rfl⟩
        · rw [simplifyTry_two obj attrs v hl hE]
          by_cases hc : jvalEqStr v "gemini_cli.api_response" ∨
              jvalEqStr v "gemini_cli.api_request"
          · rw [if_pos hc]
            cases hb : jlookup obj "_body" <;> simp
          · rw [if_neg hc]; exact ⟨none, rfl⟩
        · cases hveq : jvalEqStr v "gemini_cli.api_response" with
          | false => rw [simplifyTry_three_nonresp obj attrs v hl hE hveq]; exact ⟨none, rfl⟩
          | true =>
            have hv := jvalEqStr_eq v _ hveq
            subst hv
            rw [simplifyTry_three obj attrs hl hE]
            cases hb : buildLevel3Attrs (.obj attrs) with
            | error e =>
              have he := lookupAll_error_obj attrs level3Keys e hb
              subst he
              simp
            | ok na => cases hbody : jlookup obj "_body" <;> simp
    | null => simp at ha
    | boolean b => simp at ha
    | num q => simp at ha
    | str s => simp at ha
    | arr xs => simp at ha

/-- Helper: a record kept by `simplify_record` keeps its
`attributes["event.timestamp"]` value unchanged at every level (levels
0-2 keep the attributes dict, level 3 copies the timestamp into the
replacement dict). -/
theorem simplify_preserves_ts (obj r : Obj) (lvl : Int) (h0 : 0 ≤ lvl) (h3 : lvl ≤ 3)
    (a : Obj) (hA : jlookup obj "attributes" = some (.obj a))
    (v : JVal) (hts : jlookup a "event.timestamp" = some v)
    (h : simplify_record obj lvl = .ok (some r)) :
    ∃ a2 : Obj, jlookup r "attributes" = some (.obj a2) ∧
      jlookup a2 "event.timestamp" = some v := by
  by_cases hz : lvl = 0
  · subst hz
    rw [simplify_record_zero obj] at h
    simp only [Except.ok.injEq, Option.some.injEq] at h
    exact ⟨a, h ▸ hA, hts⟩
  cases hE : jlookup a "event.name" with
  | none =>
    rw [simplify_record_eq_checked obj lvl hz h0 h3] at h
    unfold simplifyChecked at h
    rw [hA] at h
    simp [pyContains, hE] at h
  | some v' =>
    have hL : lvl = 1 ∨ lvl = 2 ∨ lvl = 3 := by omega
    rcases hL with hl | hl | hl <;> subst hl
    · rw [simplify_record_one obj a v' hA hE] at h
      by_cases hc : jvalEqStr v' "gemini_cli.api_response" ∨
          jvalEqStr v' "gemini_cli.api_request"
      · rw [if_pos hc] at h
        simp only [Except.ok.injEq, Option.some.injEq] at h
        exact ⟨a, h ▸ hA, hts⟩
      · rw [if_neg hc] at h; simp at h
    · rw [simplify_record_two obj a v' hA hE] at h
      by_cases hc : jvalEqStr v' "gemini_cli.api_response" ∨
          jvalEqStr v' "gemini_cli.api_request"
      · rw [if_pos hc] at h
        cases hb : jlookup obj "_body" with
        | none => rw [hb] at h; simp at h
        | some b =>
          rw [hb] at h
          simp only [Except.ok.injEq, Option.some.injEq] at h
          refine ⟨a, ?_, hts⟩
          rw [← h]
          simp [jlookup]
      · rw [if_neg hc] at h; simp at h
    · cases hveq : jvalEqStr v' "gemini_cli.api_response" with
      | false => rw [simplify_record_three_nonresp obj a v' hA hE hveq] at h; simp at h
      | true =>
        have hv := jvalEqStr_eq v' _ hveq
        subst hv
        rw [simplify_record_three obj a hA hE] at h
        cases hb : buildLevel3Attrs (.obj a) with
        | error e => rw [hb] at h; simp at h
        | ok na =>
          rw [hb] at h
          cases hbody : jlookup obj "_body" with
          | none => rw [hbody] at h; simp at h
          | some b =>
            rw [hbody] at h
            simp only [Except.ok.injEq, Option.some.injEq] at h
            obtain ⟨hmap, _⟩ := lookupAll_ok a level3Keys na hb
            refine ⟨na, ?_, ?_⟩
            · rw [← h]; simp [jlookup]
            · rw [hmap]
              simp [level3Keys, jlookup, hts]

/-- Helper: a record written by a no-watermark run carries a truthy string
timestamp equal to its source record's timestamp, readable back through
`lineTs`. -/
theorem keptRec_some_ts (lvl : Int) (obj r : Obj) (h0 : 0 ≤ lvl) (h3 : lvl ≤ 3)
    (hok : ConvRecOk obj) (h : keptRec lvl obj = some r) :
    ∃ t : String, tsStrOf obj = some t ∧ t ≠ "" ∧ lineTs (.obj r) = .ok (.str t) := by
  obtain ⟨a, ha, hstr⟩ := hok
  have haOf := attrsOf_eq obj a ha
  unfold keptRec at h
  rw [haOf] at h
  cases hts : jlookup a "event.timestamp" with
  | none => rw [hts] at h; simp at h
  | some v =>
    rw [hts] at h
    obtain ⟨t, hv⟩ := hstr v hts
    subst hv
    replace h : (if pyTruthy (.str t) = true then
        (match simplify_record obj lvl with
         | Except.ok (some r) => some r
         | _ => none)
      else none) = some r := h
    by_cases htr : pyTruthy (.str t)
    · rw [if_pos htr] at h
      have htne : t ≠ "" := by simpa [pyTruthy] using htr
      cases hs : simplify_record obj lvl with
      | error e => rw [hs] at h; simp at h
      | ok o =>
        cases o with
        | none => rw [hs] at h; simp at h
        | some r0 =>
          rw [hs] at h
          simp only [Option.some.injEq] at h
          subst h
          have hA : jlookup obj "attributes" = some (.obj a) := by
            unfold getAttrsDefault at ha
            cases hl : jlookup obj "attributes" with
            | none =>
              rw [hl] at ha
              simp only [Except.ok.injEq] at ha
              rw [← ha] at hts
              simp [jlookup] at hts
            | some av =>
              rw [hl] at ha
              cases av <;> simp at ha <;> simp [ha]
          obtain ⟨a2, hra, hrts⟩ :=
            simplify_preserves_ts obj r0 lvl h0 h3 a hA (.str t) hts hs
          refine ⟨t, ?_, htne, ?_⟩
          · unfold tsStrOf
            rw [haOf, hts]
          · unfold lineTs
            simp [pyIndex, hra, hrts]
    · rw [if_neg htr] at h; simp at h

/-- Helper: a no-watermark conversion run over well-formed records never
raises, skips nothing by watermark, and writes exactly the records kept by
`keptRec`, counting them. -/
theorem convert_none_eq (lvl : Int) (h0 : 0 ≤ lvl) (h3 : lvl ≤ 3) :
    ∀ objs : List Obj, (∀ obj ∈ objs, ConvRecOk obj) →
      convert_log_file objs none lvl =
        .ok (objs.filterMap (keptRec lvl),
             ((objs.filterMap (keptRec lvl)).length : Int), 0) := by
  intro objs
  induction objs with
  | nil => intro _; rfl
  | cons obj rest ih =>
    intro hok
    have hobj := hok obj (List.mem_cons_self _ _)
    have hrest := fun o ho => hok o (List.mem_cons_of_mem _ ho)
    obtain ⟨a, ha, hstr⟩ := hobj
    have haOf := attrsOf_eq obj a ha
    have hrec := ih hrest
    simp only [convert_log_file, ha, List.filterMap_cons]
    cases hts : jlookup a "event.timestamp" with
    | none =>
      have hkr : keptRec lvl obj = none := by
        simp only [keptRec, haOf, hts]
      rw [hkr, hrec]
    | some v =>
      by_cases htr : pyTruthy v = true
      · cases hs : simplify_record obj lvl with
        | error e =>
          exact absurd hs (by
            obtain ⟨o, hoo⟩ := simplify_no_error obj lvl h0 h3 ⟨a, ha, hstr⟩
            simp [hoo])
        | ok o =>
          cases o with
          | none =>
            have hkr : keptRec lvl obj = none := by
              simp only [keptRec, haOf, hts, htr, if_true, hs]
            simp only [htr, if_true,
              show watermarkSkip v none = .ok false from rfl, hs, hkr, hrec]
          | some r =>
            have hkr : keptRec lvl obj = some r := by
              simp only [keptRec, haOf, hts, htr, if_true, hs]
            simp only [htr, if_true,
              show watermarkSkip v none = .ok false from rfl, hs, hkr, hrec,
              List.length_cons]
            push_cast
            ring_nf
      · rw [Bool.not_eq_true] at htr
        have hkr : keptRec lvl obj = none := by
          simp only [keptRec, haOf, hts, htr, Bool.false_eq_true, if_false]
        simp only [htr, Bool.false_eq_true, if_false, hkr, hrec]

/-- Helper: the written records of a no-watermark run align one-to-one
with the kept timestamps, each written record reading back its source
record's timestamp. -/
theorem kept_align (lvl : Int) (h0 : 0 ≤ lvl) (h3 : lvl ≤ 3) :
    ∀ objs : List Obj, (∀ obj ∈ objs, ConvRecOk obj) →
      List.Forall₂ (fun (t : String) (r : Obj) => t ≠ "" ∧ lineTs (.obj r) = .ok (.str t))
        (objs.filterMap (keptTs lvl)) (objs.filterMap (keptRec lvl)) := by
  intro objs
  induction objs with
  | nil => intro _; simp
  | cons obj rest ih =>
    intro hok
    have hobj := hok obj (List.mem_cons_self _ _)
    have hrest := fun o ho => hok o (List.mem_cons_of_mem _ ho)
    simp only [List.filterMap_cons]
    cases hk : keptRec lvl obj with
    | none => simp only [keptTs, hk]; exact ih hrest
    | some r =>
      obtain ⟨t, hts, htne, hline⟩ := keptRec_some_ts lvl obj r h0 h3 hobj hk
      simp only [keptTs, hk, hts]
      exact List.Forall₂.cons ⟨htne, hline⟩ (ih hrest)

/-- Helper: a `filterMap` by a function that refines another is a sublist
of the `filterMap` by the coarser one. -/
theorem filterMap_refines_sublist {α β : Type} (f g : α → Option β)
    (hfg : ∀ a b, f a = some b → g a = some b) :
    ∀ l : List α, (l.filterMap f).Sublist (l.filterMap g) := by
  intro l
  induction l with
  | nil => simp
  | cons x rest ih =>
    simp only [List.filterMap_cons]
    cases hf : f x with
    | none =>
      cases hg : g x with
      | none => exact ih
      | some b => exact ih.trans (List.sublist_cons_self b _)
    | some b => rw [hfg x b hf]; exact ih.cons₂ b

/-- Helper: in a list pairwise-ordered by `≤`, every element is at most
the last one. -/
theorem pairwise_le_mem_getLast (l : List String)
    (hp : List.Pairwise (fun t1 t2 : String => t1 ≤ t2) l) (t tl : String)
    (ht : t ∈ l) (hl : l.getLast? = some tl) : t ≤ tl := by
  induction l with
  | nil => simp at ht
  | cons x rest ih =>
    cases hrest : rest with
    | nil =>
      subst hrest
      simp at ht hl
      simp [ht, hl]
    | cons y ys =>
      subst hrest
      rw [List.getLast?_cons_cons] at hl
      rcases List.mem_cons.mp ht with h | h
      · subst h
        have hx := (List.pairwise_cons.mp hp).1
        obtain ⟨hne2, htl⟩ :=
          List.mem_getLast?_eq_getLast (l := y :: ys) (x := tl) (by rw [hl]; rfl)
        exact hx tl (by rw [htl]; exact List.getLast_mem hne2)
      · exact ih (List.pairwise_cons.mp hp).2 h hl

/-- Helper: aligned lists have aligned last elements. -/
theorem forall2_getLast {α β : Type} {R : α → β → Prop} :
    ∀ {as : List α} {bs : List β}, List.Forall₂ R as bs →
      ∀ {a : α}, as.getLast? = some a → ∃ b, bs.getLast? = some b ∧ R a b := by
  intro as
  induction as with
  | nil => intro bs h a ha; simp at ha
  | cons x rest ih =>
    intro bs h a ha
    cases h with
    | cons hxy htail =>
      rename_i y bs'
      cases rest with
      | nil =>
        cases htail
        simp at ha
        subst ha
        exact ⟨y, by simp, hxy⟩
      | cons x2 rest2 =>
        rw [List.getLast?_cons_cons] at ha
        obtain ⟨b, hb, hr⟩ := ih htail ha
        cases bs' with
        | nil => simp at hb
        | cons y2 ys2 =>
          exact ⟨b, by rw [List.getLast?_cons_cons]; exact hb, hr⟩

/-- Helper: the backward tail scan behind a blank-or-corrupt tail lands on
the nearest line that parses, returning its timestamp when it has one
(shared shape of the tail-scan arguments). -/
theorem glt_wellformed_tail (pre post : List Line) (v ts : JVal)
    (hpost : ∀ l ∈ post, l = Line.blank ∨ l = Line.corrupt)
    (hts : lineTs v = .ok ts) :
    get_last_timestamp (pre ++ Line.json v :: post) = .ok (some ts) := by
  cases pre with
  | nil =>
    simp only [List.nil_append, get_last_timestamp]
    rw [scanBack_skips post.reverse (by simpa using hpost)]
    simp [firstLineTs, hts]
  | cons p0 rest =>
    simp only [List.cons_append, get_last_timestamp, List.reverse_append,
      List.reverse_cons]
    rw [List.append_assoc, scanBack_append_skips post.reverse _ (by simpa using hpost)]
    simp [scanBack, tryLine, hts]

/-- Helper: a conversion run whose watermark dominates the timestamp of
every record that a no-watermark run would keep writes nothing: each
record is dropped for a missing or falsy timestamp, skipped as at or
below the watermark, or dropped by the same simplification rules as
before. -/
theorem convert_watermark_skips (lvl : Int) (h0 : 0 ≤ lvl) (h3 : lvl ≤ 3)
    (w : String) (hw : w ≠ "") :
    ∀ objs : List Obj, (∀ obj ∈ objs, ConvRecOk obj) →
      (∀ obj ∈ objs, ∀ t, keptTs lvl obj = some t → t ≤ w) →
      ∃ sk : Int, convert_log_file objs (some w) lvl = .ok ([], 0, sk) := by
  intro objs
  induction objs with
  | nil => intro _ _; exact ⟨0, rfl⟩
  | cons obj rest ih =>
    intro hok hbnd
    obtain ⟨a, ha, hstr⟩ := hok obj (List.mem_cons_self _ _)
    have haOf := attrsOf_eq obj a ha
    have hrest := fun o ho => hok o (List.mem_cons_of_mem _ ho)
    have hbrest := fun o ho t ht => hbnd o (List.mem_cons_of_mem _ ho) t ht
    obtain ⟨sk, hsk⟩ := ih hrest hbrest
    simp only [convert_log_file, ha]
    cases hts : jlookup a "event.timestamp" with
    | none => exact ⟨sk, by simpa using hsk⟩
    | some v =>
      obtain ⟨t, hv⟩ := hstr v hts
      subst hv
      by_cases htne : t = ""
      · subst htne
        have hfalse : pyTruthy (JVal.str "") = false := by simp [pyTruthy]
        refine ⟨sk, ?_⟩
        simp only [hfalse, Bool.false_eq_true, if_false]
        exact hsk
      · have htr : pyTruthy (JVal.str t) = true := by simp [pyTruthy, htne]
        have hws : watermarkSkip (JVal.str t) (some w) = .ok (decide (t ≤ w)) := by
          simp [watermarkSkip, hw]
        by_cases hle : t ≤ w
        · refine ⟨sk + 1, ?_⟩
          simp only [htr, if_true, hws, decide_eq_true hle, hsk]
        · cases hk : keptRec lvl obj with
          | some r =>
            have hkt : keptTs lvl obj = some t := by
              simp only [keptTs, hk]
              unfold tsStrOf
              rw [haOf, hts]
            exact absurd (hbnd obj (List.mem_cons_self _ _) t hkt) hle
          | none =>
            obtain ⟨o, ho⟩ := simplify_no_error obj lvl h0 h3 ⟨a, ha, hstr⟩
            cases o with
            | some r =>
              exfalso
              have hk2 : keptRec lvl obj = some r := by
                simp only [keptRec, haOf, hts, htr, if_true, ho]
              rw [hk] at hk2
              simp at hk2
            | none =>
              refine ⟨sk, ?_⟩
              simp only [htr, if_true, hws, decide_eq_false hle, ho, hsk]

/-- C3: incremental conversion is idempotent.  For well-formed parsed
records (attributes absent or a dict, string timestamps) with
non-decreasing event timestamps and an in-range simplification level, a
first no-watermark run of `convert_log_file` writes records `ws` (count
`ws.length`, nothing watermark-skipped); `get_last_timestamp` on the
written output extracts the watermark (the last written record's
timestamp, or `None` for an empty output); and a second conversion of the
same input against that watermark writes nothing — `written_count = 0`,
every record being dropped as missing a timestamp, skipped as at or below
the watermark, or dropped by the same simplification rules as before. -/
theorem convert_log_file_idempotent (objs : List Obj) (lvl : Int)
    (h0 : 0 ≤ lvl) (h3 : lvl ≤ 3)
    (hok : ∀ obj ∈ objs, ConvRecOk obj)
    (hmono : List.Pairwise (fun t1 t2 : String => t1 ≤ t2) (objs.filterMap tsStrOf)) :
    ∃ (ws : List Obj) (wOpt : Option String) (sk : Int),
      convert_log_file objs none lvl = .ok (ws, (ws.length : Int), 0) ∧
      get_last_timestamp (outputParts ws) = .ok (wOpt.map JVal.str) ∧
      convert_log_file objs wOpt lvl = .ok ([], 0, sk) := by
  have hrun1 := convert_none_eq lvl h0 h3 objs hok
  have halign := kept_align lvl h0 h3 objs hok
  cases hKl : (objs.filterMap (keptTs lvl)).getLast? with
  | none =>
    have hKnil : objs.filterMap (keptTs lvl) = [] := by
      cases hK : objs.filterMap (keptTs lvl) with
      | nil => rfl
      | cons x xs => rw [hK] at hKl; simp at hKl
    have hwsnil : objs.filterMap (keptRec lvl) = [] := by
      rw [hKnil] at halign
      exact List.forall₂_nil_left_iff.mp halign
    refine ⟨[], none, 0, ?_, rfl, ?_⟩
    · rw [hwsnil] at hrun1
      simpa using hrun1
    · rw [hwsnil] at hrun1
      simpa using hrun1
  | some tl =>
    have hsub : (objs.filterMap (keptTs lvl)).Sublist (objs.filterMap tsStrOf) := by
      refine filterMap_refines_sublist _ _ ?_ objs
      intro o t ht
      unfold keptTs at ht
      cases hk : keptRec lvl o with
      | none => rw [hk] at ht; simp at ht
      | some r => rw [hk] at ht; exact ht
    have hpK := hmono.sublist hsub
    have hbound : ∀ obj ∈ objs, ∀ t, keptTs lvl obj = some t → t ≤ tl := by
      intro o ho t ht
      exact pairwise_le_mem_getLast _ hpK t tl
        (List.mem_filterMap.mpr ⟨o, ho, ht⟩) hKl
    obtain ⟨rl, hrlast, htlne, hlinel⟩ := forall2_getLast halign hKl
    have hwne : objs.filterMap (keptRec lvl) ≠ [] := by
      intro hnil
      rw [hnil] at hrlast
      simp at hrlast
    have hsplit : objs.filterMap (keptRec lvl) =
        (objs.filterMap (keptRec lvl)).dropLast ++ [rl] :=
      (List.dropLast_append_getLast? rl (by rw [hrlast]; rfl)).symm
    have hglt : get_last_timestamp (outputParts (objs.filterMap (keptRec lvl))) =
        .ok (some (.str tl)) := by
      have hparts : outputParts (objs.filterMap (keptRec lvl)) =
          ((objs.filterMap (keptRec lvl)).dropLast.map (fun r => Line.json (.obj r)))
            ++ (Line.json (.obj rl) :: [Line.blank]) := by
        unfold outputParts
        rw [if_neg (by simpa using hwne)]
        conv_lhs => rw [hsplit]
        rw [List.map_append]
        simp
      rw [hparts]
      exact glt_wellformed_tail _ [Line.blank] _ _
        (by intro l hl; simp at hl; simp [hl]) hlinel
    obtain ⟨sk, hsk⟩ := convert_watermark_skips lvl h0 h3 tl htlne objs hok hbound
    exact ⟨objs.filterMap (keptRec lvl), some tl, sk, hrun1, hglt, hsk⟩

/-- C3 witness: the idempotence theorem applied to a concrete two-record
input (both `api_response` records with increasing string timestamps) at
simplification level 1. -/
theorem convert_log_file_idempotent_witness :
    ∃ (ws : List Obj) (wOpt : Option String) (sk : Int),
      convert_log_file
        [[("attributes", JVal.obj [("event.name", JVal.str "gemini_cli.api_response"),
            ("event.timestamp", JVal.str "t1")])],
         [("attributes", JVal.obj [("event.name", JVal.str "gemini_cli.api_response"),
            ("event.timestamp", JVal.str "t2")])]] none 1 =
        .ok (ws, (ws.length : Int), 0) ∧
      get_last_timestamp (outputParts ws) = .ok (wOpt.map JVal.str) ∧
      convert_log_file
        [[("attributes", JVal.obj [("event.name", JVal.str "gemini_cli.api_response"),
            ("event.timestamp", JVal.str "t1")])],
         [("attributes", JVal.obj [("event.name", JVal.str "gemini_cli.api_response"),
            ("event.timestamp", JVal.str "t2")])]] wOpt 1 =
        .ok ([], 0, sk) :=
  convert_log_file_idempotent _ 1 (by decide) (by decide)
    (by
      intro obj hobj
      simp only [List.mem_cons, List.mem_singleton, List.not_mem_nil, or_false] at hobj
      rcases hobj with h | h <;> subst h <;>
        exact ⟨_, rfl, fun v hv => ⟨_, (Option.some_inj.mp hv).symm⟩⟩)
    (by
      rw [show ([[("attributes", JVal.obj [("event.name", JVal.str "gemini_cli.api_response"),
            ("event.timestamp", JVal.str "t1")])],
         [("attributes", JVal.obj [("event.name", JVal.str "gemini_cli.api_response"),
            ("event.timestamp", JVal.str "t2")])]].filterMap tsStrOf) = ["t1", "t2"]
        from rfl]
      refine List.pairwise_cons.mpr ⟨?_, List.pairwise_singleton _ _⟩
      intro t ht
      simp only [List.mem_singleton] at ht
      subst ht
      simp
      decide)
